import Mathlib

/-!
Verification of the symbolic-logic reasoning core and collaborators of the
Automated-Reasoning-Project repository.

The repository ships the natural-language parser (semantic_parser.py), the
HTTP API (api.py), the persistence layer (persistence.py), a console UI
(ui.py) and an NLP-to-FOL prototype (main.py).  The reasoning core itself
(term unification and substitution, the forward-chaining engine and the
resolution engine) is referenced by these files but its module is not part
of the source tree, so it is modelled here from the design document, while
everything taken from the shipped Python files is translated directly.
-/

/-! ## Term and Substitution (modelled from the spec)

Modelled from the spec: the Term/Substitution component (spec section 3 and
section 4.1) is code of the repository whose module is missing from the
source tree.  A Term is either a variable or a constant; compound argument
lists are flat ordered sequences of Terms.  A Substitution maps variable
names to Terms, extended copy-on-write.  Python recursion is modelled with
an explicit fuel parameter standing for the interpreter recursion budget. -/

inductive Term where
  | var (name : String)
  | const (name : String)
deriving DecidableEq, Repr

/-- A substitution: variable name to Term, first binding wins (a fresh key is
always consed on the front, matching dict insertion of an absent key). -/
abbrev Subst := List (String × Term)

def lookupS : Subst → String → Option Term
  | [], _ => none
  | (k, t) :: rest, v => if k = v then some t else lookupS rest v

/-- Modelled from the spec: isVariable(term), true iff the tag marks a variable. -/
def isVariable : Term → Bool
  | .var _ => true
  | .const _ => false

/-- Modelled from the spec: substitute(term, subs) replaces a variable with its
bound value using a single dereference per variable (section 4.1: not an
until-fixpoint resolve of chained bindings); constants and unbound variables
pass through unchanged. -/
def substitute (t : Term) (s : Subst) : Term :=
  match t with
  | .var v =>
    match lookupS s v with
    | some b => b
    | none => .var v
  | .const c => .const c

/-- substitute mapped over an ordered sequence of terms (argument lists). -/
def substituteList (ts : List Term) (s : Subst) : List Term :=
  ts.map (fun t => substitute t s)

/-- Modelled from the spec: unifyVar(var, x, subs).  If var is bound, unify its
binding with x instead (dereference and retry); else if x is a bound
variable, unify var with the binding of x; else extend subs with var -> x.
No occurs check.  `recur` is the unify call one recursion level deeper. -/
def unifyVar (recur : Term → Term → Subst → Option Subst)
    (v : String) (x : Term) (s : Subst) : Option Subst :=
  match lookupS s v with
  | some b => recur b x s
  | none =>
    match x with
    | .var w =>
      match lookupS s w with
      | some b => recur (.var v) b s
      | none => some ((v, x) :: s)
    | .const _ => some ((v, x) :: s)

/-- Modelled from the spec: unify(x, y, subs) on terms.  Equal terms return
subs unchanged; a variable on either side delegates to unifyVar; two distinct
constants fail.  The fuel argument models the Python recursion budget spent
by the dereference-and-retry loop of unifyVar. -/
def unify : Nat → Term → Term → Subst → Option Subst
  | 0, _, _, _ => none
  | fuel + 1, x, y, s =>
    if x = y then some s
    else
      match x, y with
      | .var v, _ => unifyVar (unify fuel) v y s
      | _, .var w => unifyVar (unify fuel) w x s
      | _, _ => none

/-- Modelled from the spec: unify on two ordered sequences of equal length,
element-wise, threading the substitution through; any element failure fails
the whole unification. -/
def unifyList (fuel : Nat) : List Term → List Term → Subst → Option Subst
  | [], [], s => some s
  | x :: xs, y :: ys, s =>
    match unify fuel x y s with
    | some s' => unifyList fuel xs ys s'
    | none => none
  | _, _, _ => none

/-! ### Basic lemmas about unify -/

theorem unify_eq_same (fuel : Nat) (x : Term) (s : Subst) :
    unify (fuel + 1) x x s = some s := by
  rw [unify.eq_def]
  simp

theorem unify_var_left (fuel : Nat) (v : String) (y : Term) (s : Subst)
    (h : Term.var v ≠ y) :
    unify (fuel + 1) (.var v) y s = unifyVar (unify fuel) v y s := by
  rw [unify.eq_def]
  simp [h]

theorem unify_const_var (fuel : Nat) (c : String) (w : String) (s : Subst) :
    unify (fuel + 1) (.const c) (.var w) s
      = unifyVar (unify fuel) w (.const c) s := by
  rw [unify.eq_def]
  simp

theorem unify_const_const (fuel : Nat) (c d : String) (s : Subst)
    (h : c ≠ d) :
    unify (fuel + 1) (.const c) (.const d) s = none := by
  rw [unify.eq_def]
  simp [h]

/-- unify never discards an existing binding: a key bound in the input
substitution keeps its binding in a successful output substitution. -/
theorem unify_preserves_lookup :
    ∀ fuel x y s s', unify fuel x y s = some s' →
      ∀ v t, lookupS s v = some t → lookupS s' v = some t := by
  intro fuel
  induction fuel with
  | zero => intro x y s s' h; simp [unify] at h
  | succ n ih =>
    intro x y s s' h v t hv
    by_cases hxy : x = y
    · rw [hxy, unify_eq_same] at h
      cases h
      exact hv
    · cases x with
      | var v0 =>
        rw [unify_var_left n v0 y s hxy] at h
        cases hb : lookupS s v0 with
        | some b =>
          simp only [unifyVar, hb] at h
          exact ih _ _ _ _ h v t hv
        | none =>
          cases y with
          | var w =>
            cases hw : lookupS s w with
            | some b =>
              simp only [unifyVar, hb, hw] at h
              exact ih _ _ _ _ h v t hv
            | none =>
              simp only [unifyVar, hb, hw] at h
              cases h
              have hne : v0 ≠ v := by
                intro hvv; rw [hvv, hv] at hb; cases hb
              simpa [lookupS, hne] using hv
          | const c =>
            simp only [unifyVar, hb] at h
            cases h
            have hne : v0 ≠ v := by
              intro hvv; rw [hvv, hv] at hb; cases hb
            simpa [lookupS, hne] using hv
      | const c0 =>
        cases y with
        | var w =>
          rw [unify_const_var] at h
          cases hb : lookupS s w with
          | some b =>
            simp only [unifyVar, hb] at h
            exact ih _ _ _ _ h v t hv
          | none =>
            simp only [unifyVar, hb] at h
            cases h
            have hne : w ≠ v := by
              intro hvv; rw [hvv, hv] at hb; cases hb
            simpa [lookupS, hne] using hv
        | const c1 =>
          have hcc : c0 ≠ c1 := by
            intro hc; exact hxy (by rw [hc])
          rw [unify_const_const n c0 c1 s hcc] at h
          cases h

/-- A substitution every binding of which maps a variable to a constant
(no variable-to-variable bindings, hence no chains for a single-pass
substitute to miss). -/
def ConstValued (s : Subst) : Prop :=
  ∀ v t, lookupS s v = some t → ∃ c, t = Term.const c

/-- Substitution soundness holds when the starting substitution binds
variables to constants only: a successful unification then produces a
substitution under which the single-pass substitute equalises both terms. -/
theorem unify_sound_of_constValued :
    ∀ fuel x y s s', ConstValued s → unify fuel x y s = some s' →
      substitute x s' = substitute y s' := by
  intro fuel
  induction fuel with
  | zero => intro x y s s' _ h; simp [unify] at h
  | succ n ih =>
    intro x y s s' hc h
    by_cases hxy : x = y
    · subst hxy; rfl
    · cases x with
      | var v0 =>
        rw [unify_var_left n v0 y s hxy] at h
        cases hb : lookupS s v0 with
        | some b =>
          simp only [unifyVar, hb] at h
          obtain ⟨c, hc2⟩ := hc v0 b hb
          have hmain := ih b y s s' hc h
          have hl : lookupS s' v0 = some b :=
            unify_preserves_lookup n b y s s' h v0 b hb
          have h1 : substitute (Term.var v0) s' = b := by simp [substitute, hl]
          have h2 : substitute b s' = b := by subst hc2; simp [substitute]
          rw [h1, ← h2]
          exact hmain
        | none =>
          cases y with
          | var w =>
            cases hw : lookupS s w with
            | some b =>
              simp only [unifyVar, hb, hw] at h
              obtain ⟨c, hc2⟩ := hc w b hw
              have hmain := ih (Term.var v0) b s s' hc h
              have hl : lookupS s' w = some b :=
                unify_preserves_lookup n (Term.var v0) b s s' h w b hw
              have h2 : substitute b s' = b := by subst hc2; simp [substitute]
              have h3 : substitute (Term.var w) s' = b := by simp [substitute, hl]
              rw [h3, ← h2]
              exact hmain
            | none =>
              simp only [unifyVar, hb, hw] at h
              cases h
              have hvw : v0 ≠ w := fun hvv => hxy (by rw [hvv])
              simp [substitute, lookupS, hvw, hw]
          | const c =>
            simp only [unifyVar, hb] at h
            cases h
            simp [substitute, lookupS]
      | const c0 =>
        cases y with
        | var w =>
          rw [unify_const_var] at h
          cases hb : lookupS s w with
          | some b =>
            simp only [unifyVar, hb] at h
            obtain ⟨c, hc2⟩ := hc w b hb
            have hmain := ih b (Term.const c0) s s' hc h
            have hl : lookupS s' w = some b :=
              unify_preserves_lookup n b (Term.const c0) s s' h w b hb
            have h2 : substitute b s' = b := by subst hc2; simp [substitute]
            have h3 : substitute (Term.var w) s' = b := by simp [substitute, hl]
            rw [h3, ← h2]
            exact hmain.symm
          | none =>
            simp only [unifyVar, hb] at h
            cases h
            simp [substitute, lookupS]
        | const c1 =>
          have hcc : c0 ≠ c1 := fun hcx => hxy (by rw [hcx])
          rw [unify_const_const n c0 c1 s hcc] at h
          cases h

/-- Claim C2 counterexample: starting from the substitution X -> Y, unifying
the variable X with the constant c succeeds and yields the chained
substitution Y -> c, X -> Y, but the single-pass substitute maps X to Y
while it maps c to c, so the two results differ. -/
theorem claim_C2_counterexample :
    unify 3 (Term.var "X") (Term.const "c") [("X", Term.var "Y")]
        = some [("Y", Term.const "c"), ("X", Term.var "Y")]
      ∧ substitute (Term.var "X") [("Y", Term.const "c"), ("X", Term.var "Y")]
          ≠ substitute (Term.const "c") [("Y", Term.const "c"), ("X", Term.var "Y")] := by
  constructor
  · rfl
  · decide

/-- Claim C2 (amended): if unify(x, y, subs) succeeds yielding subs2 and every
binding of subs maps a variable to a constant, then substitute(x, subs2) is
structurally identical to substitute(y, subs2).  (As stated over every
substitution the claim fails: a variable-to-variable binding that unification
later extends into a chain defeats the single-pass substitute; see the
counterexample.) -/
theorem claim_C2_substitution_soundness (fuel : Nat) (x y : Term) (s s' : Subst)
    (hconst : ConstValued s) (h : unify fuel x y s = some s') :
    substitute x s' = substitute y s' :=
  unify_sound_of_constValued fuel x y s s' hconst h

theorem claim_C2_substitution_soundness_witness :
    substitute (Term.var "X") [("X", Term.const "c"), ("Z", Term.const "d")]
      = substitute (Term.const "c") [("X", Term.const "c"), ("Z", Term.const "d")] :=
  claim_C2_substitution_soundness 2 (Term.var "X") (Term.const "c")
    [("Z", Term.const "d")] [("X", Term.const "c"), ("Z", Term.const "d")]
    (by
      intro v t hvt
      simp only [lookupS] at hvt
      by_cases hz : ("Z" : String) = v
      · rw [if_pos hz] at hvt
        cases hvt
        exact ⟨"d", rfl⟩
      · rw [if_neg hz] at hvt
        cases hvt)
    (by decide)

/-- Claim C7: over the empty starting substitution, unification of two terms
succeeds in one argument order exactly when it succeeds in the other, and
applying either resulting substitution to both terms yields equal results. -/
theorem claim_C7_unification_symmetry (fuel : Nat) (x y : Term) :
    ((unify (fuel + 1) x y []).isSome = (unify (fuel + 1) y x []).isSome)
    ∧ (∀ s, unify (fuel + 1) x y [] = some s → substitute x s = substitute y s)
    ∧ (∀ s, unify (fuel + 1) y x [] = some s → substitute x s = substitute y s) := by
  cases x with
  | var v =>
    cases y with
    | var w =>
      by_cases hvw : v = w
      · subst hvw
        refine ⟨rfl, ?_, ?_⟩ <;>
        · intro s hs
          simp only [unify_eq_same, Option.some.injEq] at hs
          subst hs
          rfl
      · have hxy : Term.var v ≠ Term.var w := by simp [hvw]
        have hyx : Term.var w ≠ Term.var v := by simp [Ne.symm hvw]
        have e1 : unify (fuel + 1) (.var v) (.var w) [] = some [(v, Term.var w)] := by
          rw [unify_var_left fuel v _ _ hxy]
          simp [unifyVar, lookupS]
        have e2 : unify (fuel + 1) (.var w) (.var v) [] = some [(w, Term.var v)] := by
          rw [unify_var_left fuel w _ _ hyx]
          simp [unifyVar, lookupS]
        refine ⟨by simp [e1, e2], ?_, ?_⟩
        · intro s hs
          rw [e1] at hs
          cases hs
          simp [substitute, lookupS, hvw]
        · intro s hs
          rw [e2] at hs
          cases hs
          simp [substitute, lookupS, Ne.symm hvw]
    | const c =>
      have hxy : Term.var v ≠ Term.const c := by simp
      have e1 : unify (fuel + 1) (.var v) (.const c) [] = some [(v, Term.const c)] := by
        rw [unify_var_left fuel v _ _ hxy]
        simp [unifyVar, lookupS]
      have e2 : unify (fuel + 1) (.const c) (.var v) [] = some [(v, Term.const c)] := by
        rw [unify_const_var]
        simp [unifyVar, lookupS]
      refine ⟨by simp [e1, e2], ?_, ?_⟩
      · intro s hs
        rw [e1] at hs
        cases hs
        simp [substitute, lookupS]
      · intro s hs
        rw [e2] at hs
        cases hs
        simp [substitute, lookupS]
  | const c =>
    cases y with
    | var w =>
      have hyx : Term.var w ≠ Term.const c := by simp
      have e1 : unify (fuel + 1) (.const c) (.var w) [] = some [(w, Term.const c)] := by
        rw [unify_const_var]
        simp [unifyVar, lookupS]
      have e2 : unify (fuel + 1) (.var w) (.const c) [] = some [(w, Term.const c)] := by
        rw [unify_var_left fuel w _ _ hyx]
        simp [unifyVar, lookupS]
      refine ⟨by simp [e1, e2], ?_, ?_⟩
      · intro s hs
        rw [e1] at hs
        cases hs
        simp [substitute, lookupS]
      · intro s hs
        rw [e2] at hs
        cases hs
        simp [substitute, lookupS]
    | const d =>
      by_cases hcd : c = d
      · subst hcd
        refine ⟨rfl, ?_, ?_⟩ <;>
        · intro s hs
          simp only [unify_eq_same, Option.some.injEq] at hs
          subst hs
          rfl
      · have e1 := unify_const_const fuel c d [] hcd
        have e2 := unify_const_const fuel d c [] (Ne.symm hcd)
        refine ⟨by simp [e1, e2], ?_, ?_⟩
        · intro s hs
          rw [e1] at hs
          cases hs
        · intro s hs
          rw [e2] at hs
          cases hs

theorem claim_C7_unification_symmetry_witness :
    substitute (Term.var "X") [("X", Term.const "a")]
      = substitute (Term.const "a") [("X", Term.const "a")] :=
  (claim_C7_unification_symmetry 0 (Term.var "X") (Term.const "a")).2.1
    [("X", Term.const "a")] (by decide)

/-- Claim C8: unifying two structurally equal terms under any substitution
succeeds and returns the substitution unchanged, adding no new bindings. -/
theorem claim_C8_unify_equal_terms (fuel : Nat) (x y : Term) (s : Subst)
    (hxy : x = y) : unify (fuel + 1) x y s = some s := by
  subst hxy
  exact unify_eq_same fuel x s

theorem claim_C8_unify_equal_terms_witness :
    unify 1 (Term.const "socrates") (Term.const "socrates") [("X", Term.var "Y")]
      = some [("X", Term.var "Y")] :=
  claim_C8_unify_equal_terms 0 (Term.const "socrates") (Term.const "socrates")
    [("X", Term.var "Y")] rfl

/-! ## Fact, Rule and the Forward-Chaining Engine (modelled from the spec)

Modelled from the spec: the Fact/Rule model and the forward-chaining engine
(spec sections 3 and 4.2) are code of the repository whose module is missing
from the source tree.  A fact is a signed predicate atom; a rule is a list of
antecedent facts and one consequent fact.  The engine keeps a working memory
of facts (structural equality decides membership) and runs rules to a
fixpoint.  `KBFact`/`KBRule` carry a KB prefix only because Mathlib already
owns the name `Fact`. -/

structure KBFact where
  name : String
  args : List Term
  negated : Bool
deriving DecidableEq, Repr

structure KBRule where
  antecedents : List KBFact
  consequent : KBFact
deriving DecidableEq, Repr

/-- Substitute into the arguments of a fact (used on rule consequents). -/
def substFact (s : Subst) (f : KBFact) : KBFact :=
  { f with args := substituteList f.args s }

/-- The substitutions extending s under which one antecedent matches some
working-memory fact of the same predicate name and polarity. -/
def candSubs (fuel : Nat) (a : KBFact) (facts : List KBFact) (s : Subst) : List Subst :=
  facts.filterMap fun f =>
    if a.name = f.name ∧ a.negated = f.negated then unifyList fuel a.args f.args s
    else none

/-- Modelled from the spec: matchAntecedents(antecedents, facts, subs) as a
level-by-level search: an empty antecedent list keeps the current
substitutions; otherwise every current substitution is extended through every
compatible fact for the first antecedent and the rest are matched under each
extension, accumulating all successful completions (same result list as the
recursive backtracking formulation, by associativity of flatMap). -/
def matchAntecedents (fuel : Nat) : List KBFact → List KBFact → List Subst → List Subst
  | [], _, ss => ss
  | a :: rest, facts, ss =>
    matchAntecedents fuel rest facts (ss.flatMap (candSubs fuel a facts))

/-- Insert a candidate fact if not already structurally present, recording in
the flag whether the working memory grew. -/
def insertFact (acc : List KBFact × Bool) (f : KBFact) : List KBFact × Bool :=
  if f ∈ acc.1 then acc else (acc.1 ++ [f], true)

/-- One rule of one pass of infer(): match the antecedents against the current
working memory from the empty substitution and insert every substituted
consequent. -/
def applyRule (fuel : Nat) (st : List KBFact × Bool) (r : KBRule) : List KBFact × Bool :=
  (matchAntecedents fuel r.antecedents st.1 [[]]).foldl
    (fun acc s => insertFact acc (substFact s r.consequent)) st

/-- One full pass of infer(): every rule in list order, working memory updated
as the pass proceeds, flag true when the pass added at least one fact. -/
def runPass (fuel : Nat) (rules : List KBRule) (facts : List KBFact) : List KBFact × Bool :=
  rules.foldl (applyRule fuel) (facts, false)

/-- Modelled from the spec: infer() repeats passes until a full pass adds no
new fact.  The pass budget makes the fixpoint loop a total function; a result
of some facts means the loop reached its fixpoint within the budget. -/
def inferLoop (fuel : Nat) (rules : List KBRule) : Nat → List KBFact → Option (List KBFact)
  | 0, _ => none
  | passes + 1, facts =>
    match runPass fuel rules facts with
    | (facts', true) => inferLoop fuel rules passes facts'
    | (facts', false) => some facts'

/-! ### Lemmas: passes only append facts, a pass that reports no change is the
identity -/

theorem insertFact_subset (acc : List KBFact × Bool) (f : KBFact) :
    ∀ x ∈ acc.1, x ∈ (insertFact acc f).1 := by
  intro x hx
  unfold insertFact
  split
  · exact hx
  · exact List.mem_append_left _ hx

theorem insertFact_unchanged (acc : List KBFact × Bool) (f : KBFact)
    (h : (insertFact acc f).2 = false) : insertFact acc f = acc ∧ acc.2 = false := by
  by_cases hf : f ∈ acc.1
  · have he : insertFact acc f = acc := by simp [insertFact, hf]
    rw [he] at h
    exact ⟨he, h⟩
  · exfalso
    simp [insertFact, hf] at h

theorem foldl_insertFact_subset (g : Subst → KBFact) :
    ∀ (ss : List Subst) (acc : List KBFact × Bool),
      ∀ x ∈ acc.1, x ∈ ((ss.foldl (fun a s => insertFact a (g s)) acc).1) := by
  intro ss
  induction ss with
  | nil => intro acc x hx; exact hx
  | cons s rest ih =>
    intro acc x hx
    exact ih (insertFact acc (g s)) x (insertFact_subset acc (g s) x hx)

theorem foldl_insertFact_false (g : Subst → KBFact) :
    ∀ (ss : List Subst) (acc : List KBFact × Bool),
      (ss.foldl (fun a s => insertFact a (g s)) acc).2 = false →
        ss.foldl (fun a s => insertFact a (g s)) acc = acc ∧ acc.2 = false := by
  intro ss
  induction ss with
  | nil => intro acc h; exact ⟨rfl, h⟩
  | cons s rest ih =>
    intro acc h
    obtain ⟨h1, h2⟩ := ih (insertFact acc (g s)) h
    obtain ⟨h3, h4⟩ := insertFact_unchanged acc (g s) h2
    exact ⟨by simp only [List.foldl_cons]; rw [h1, h3], h4⟩

theorem applyRule_subset (fuel : Nat) (st : List KBFact × Bool) (r : KBRule) :
    ∀ x ∈ st.1, x ∈ (applyRule fuel st r).1 :=
  foldl_insertFact_subset (fun s => substFact s r.consequent)
    (matchAntecedents fuel r.antecedents st.1 [[]]) st

theorem applyRule_false (fuel : Nat) (st : List KBFact × Bool) (r : KBRule)
    (h : (applyRule fuel st r).2 = false) : applyRule fuel st r = st ∧ st.2 = false :=
  foldl_insertFact_false (fun s => substFact s r.consequent)
    (matchAntecedents fuel r.antecedents st.1 [[]]) st h

theorem foldl_applyRule_subset (fuel : Nat) :
    ∀ (rules : List KBRule) (acc : List KBFact × Bool),
      ∀ x ∈ acc.1, x ∈ ((rules.foldl (applyRule fuel) acc).1) := by
  intro rules
  induction rules with
  | nil => intro acc x hx; exact hx
  | cons r rest ih =>
    intro acc x hx
    exact ih (applyRule fuel acc r) x (applyRule_subset fuel acc r x hx)

theorem foldl_applyRule_false (fuel : Nat) :
    ∀ (rules : List KBRule) (acc : List KBFact × Bool),
      (rules.foldl (applyRule fuel) acc).2 = false →
        rules.foldl (applyRule fuel) acc = acc ∧ acc.2 = false := by
  intro rules
  induction rules with
  | nil => intro acc h; exact ⟨rfl, h⟩
  | cons r rest ih =>
    intro acc h
    obtain ⟨h1, h2⟩ := ih (applyRule fuel acc r) h
    obtain ⟨h3, h4⟩ := applyRule_false fuel acc r h2
    exact ⟨by simp only [List.foldl_cons]; rw [h1, h3], h4⟩

theorem runPass_subset (fuel : Nat) (rules : List KBRule) (facts : List KBFact) :
    ∀ x ∈ facts, x ∈ (runPass fuel rules facts).1 :=
  foldl_applyRule_subset fuel rules (facts, false)

theorem runPass_false (fuel : Nat) (rules : List KBRule) (facts : List KBFact)
    (h : (runPass fuel rules facts).2 = false) :
    runPass fuel rules facts = (facts, false) :=
  (foldl_applyRule_false fuel rules (facts, false) h).1

/-- Claim C3: when infer() reaches its fixpoint, the working memory after the
call contains every fact present before it (facts are only ever added), and a
second call immediately afterwards stops after one unchanged pass, returning
the same working memory. -/
theorem claim_C3_infer_monotone_idempotent (ufuel passes : Nat) (rules : List KBRule)
    (facts out : List KBFact) (h : inferLoop ufuel rules passes facts = some out) :
    (∀ f ∈ facts, f ∈ out) ∧ inferLoop ufuel rules 1 out = some out := by
  induction passes generalizing facts with
  | zero => simp [inferLoop] at h
  | succ n ih =>
    simp only [inferLoop] at h
    cases hp : runPass ufuel rules facts with
    | mk facts' changed =>
      rw [hp] at h
      cases changed with
      | true =>
        have h' : inferLoop ufuel rules n facts' = some out := h
        obtain ⟨hsub, hidem⟩ := ih facts' h'
        refine ⟨?_, hidem⟩
        intro f hf
        apply hsub
        have hmem := runPass_subset ufuel rules facts f hf
        rw [hp] at hmem
        exact hmem
      | false =>
        have h' : some facts' = some out := h
        cases h'
        have hrp : runPass ufuel rules facts = (facts, false) :=
          runPass_false ufuel rules facts (by rw [hp])
        rw [hp] at hrp
        have hff : out = facts := congrArg Prod.fst hrp
        constructor
        · intro f hf
          rw [hff]
          exact hf
        · simp only [inferLoop]
          rw [hff, hp]
          show some out = some facts
          rw [hff]

/-- Working memory and rule set of the forward-chaining witness scenario. -/
def wcFacts : List KBFact := [⟨"works_hard", [Term.const "jack"], false⟩]

def wcRules : List KBRule :=
  [⟨[⟨"works_hard", [Term.var "x"], false⟩], ⟨"dull_boy", [Term.var "x"], false⟩⟩]

def wcOut : List KBFact :=
  [⟨"works_hard", [Term.const "jack"], false⟩, ⟨"dull_boy", [Term.const "jack"], false⟩]

theorem claim_C3_infer_monotone_idempotent_witness :
    (∀ f ∈ wcFacts, f ∈ wcOut) ∧ inferLoop 3 wcRules 1 wcOut = some wcOut :=
  claim_C3_infer_monotone_idempotent 3 3 wcRules wcFacts wcOut (by decide)

/-! ## Clause Model and Resolution Engine (modelled from the spec)

Modelled from the spec: the clause model and the resolution-refutation
engine (spec section 4.3) are code of the repository whose module is missing
from the source tree.  A clause is a set of literals (a literal shares the
fields of a fact); it is represented here as a duplicate-free list compared
up to set equivalence, the Lean counterpart of a frozenset.  The round
budget makes the saturation loop a total function. -/

/-- The clause-form counterpart of a fact with its polarity inverted. -/
def invertLit (f : KBFact) : KBFact := { f with negated := !f.negated }

/-- Collapse duplicate literals, keeping first occurrences in order. -/
def dedupLits (ls : List KBFact) : List KBFact :=
  ls.foldl (fun acc l => if l ∈ acc then acc else acc ++ [l]) []

/-- Modelled from the spec: factToClause(fact), a one-literal clause. -/
def factToClause (f : KBFact) : List KBFact := [f]

/-- Modelled from the spec: ruleToClause(rule), the consequent literal plus
every antecedent literal with inverted polarity. -/
def ruleToClause (r : KBRule) : List KBFact :=
  dedupLits (r.consequent :: r.antecedents.map invertLit)

/-- Set inclusion of clause literal lists. -/
def clauseSubset (c d : List KBFact) : Bool :=
  c.all fun l => decide (l ∈ d)

/-- Set equivalence of clauses (frozenset equality). -/
def clauseEquiv (c d : List KBFact) : Bool :=
  clauseSubset c d && clauseSubset d c

/-- Membership of a clause in a clause set, up to set equivalence. -/
def memClause (cs : List (List KBFact)) (c : List KBFact) : Bool :=
  cs.any (clauseEquiv c)

/-- Insert a clause unless an equivalent clause is already present. -/
def insertClause (cs : List (List KBFact)) (c : List KBFact) : List (List KBFact) :=
  if memClause cs c then cs else cs ++ [c]

/-- Modelled from the spec: resolveClauses(ci, cj): for every pair of literals
with the same predicate name and opposite polarity whose argument lists
unify from the empty substitution, the resolvent is the union of the two
clauses minus the resolved literals, with the unifier applied. -/
def resolveClauses (fuel : Nat) (ci cj : List KBFact) : List (List KBFact) :=
  ci.flatMap fun li =>
    cj.filterMap fun lj =>
      if li.name = lj.name ∧ li.negated ≠ lj.negated then
        match unifyList fuel li.args lj.args [] with
        | some s =>
          some (dedupLits
            (((ci.filter (fun l => l ≠ li)) ++ (cj.filter (fun l => l ≠ lj))).map
              (substFact s)))
        | none => none
      else none

/-- All unordered pairs of distinct elements of a list. -/
def allPairs : List α → List (α × α)
  | [] => []
  | x :: xs => xs.map (fun y => (x, y)) ++ allPairs xs

/-- One resolution round: the resolvents of every unordered pair of clauses. -/
def resolutionRound (fuel : Nat) (cs : List (List KBFact)) : List (List KBFact) :=
  (allPairs cs).flatMap fun p => resolveClauses fuel p.1 p.2

/-- Modelled from the spec: the refutation loop.  If the empty clause appears
among the new resolvents the query is entailed; if no new resolvent extends
the clause set, saturation is reached without contradiction; otherwise the
resolvents are added and the loop repeats. -/
def resolutionLoop (fuel : Nat) : Nat → List (List KBFact) → Option Bool
  | 0, _ => none
  | rounds + 1, cs =>
    let new := resolutionRound fuel cs
    if new.any (fun c => c.isEmpty) then some true
    else if new.all (fun c => memClause cs c) then some false
    else resolutionLoop fuel rounds (new.foldl insertClause cs)

/-- Modelled from the spec: resolution(query) negates the query, adds it as a
unit clause to a working copy of the clause set, and runs the refutation
loop. -/
def resolution (fuel rounds : Nat) (kb : List (List KBFact)) (q : KBFact) : Option Bool :=
  resolutionLoop fuel rounds (insertClause kb (factToClause (invertLit q)))

/-- The clause set of the entailment scenario: the clause of the fact
man(socrates) and the clause of the rule man(x) implies mortal(x). -/
def scenarioKB : List (List KBFact) :=
  insertClause
    (insertClause [] (factToClause ⟨"man", [Term.const "socrates"], false⟩))
    (ruleToClause ⟨[⟨"man", [Term.var "x"], false⟩], ⟨"mortal", [Term.var "x"], false⟩⟩)

/-- Claim C6: with clauses derived from man(socrates) and the rule from
man(x) to mortal(x), resolution proves mortal(socrates) and fails to prove
mortal(plato). -/
theorem claim_C6_resolution_scenario :
    resolution 4 4 scenarioKB ⟨"mortal", [Term.const "socrates"], false⟩ = some true
    ∧ resolution 4 4 scenarioKB ⟨"mortal", [Term.const "plato"], false⟩ = some false := by
  constructor
  · decide
  · decide

/-! ## The Predicate dataclass of main.py

Translated from src/main.py: the dataclasses Term (fields name, type, args,
with args defaulting to None) and Predicate (fields name, args, negated).
The @dataclass decorator generates field-by-field equality; because the
decorator is used with its defaults (eq true, frozen false, no forced hash),
Python sets the generated __hash__ of both classes to None, making their
instances unhashable. -/

inductive PyTerm where
  | mk (name : String) (type : String) (args : Option (List PyTerm))

structure PyPredicate where
  name : String
  args : List PyTerm
  negated : Bool

mutual

/-- The dataclass-generated equality of main.py Term values: field-by-field
comparison of name, type and args. -/
def pyTermBEq : PyTerm → PyTerm → Bool
  | .mk n1 t1 a1, .mk n2 t2 a2 => n1 == n2 && t1 == t2 && pyArgsBEq a1 a2

def pyArgsBEq : Option (List PyTerm) → Option (List PyTerm) → Bool
  | none, none => true
  | some l1, some l2 => pyTermListBEq l1 l2
  | _, _ => false

def pyTermListBEq : List PyTerm → List PyTerm → Bool
  | [], [] => true
  | x :: xs, y :: ys => pyTermBEq x y && pyTermListBEq xs ys
  | _, _ => false

end

/-- The dataclass-generated equality of main.py Predicate values: a
field-by-field comparison of predicate name, ordered argument sequence and
negation flag. -/
def pyPredicateEq (p q : PyPredicate) : Bool :=
  p.name == q.name && pyTermListBEq p.args q.args && (p.negated == q.negated)

/-- Whether the @dataclass decorator leaves a usable __hash__ on the class: it
does when a hash is forced, when equality generation is off, or when the
class is frozen; with eq on and frozen off it sets __hash__ to None. -/
def dataclassHashDefined (eqFlag frozenFlag forcedHashFlag : Bool) : Bool :=
  forcedHashFlag || !eqFlag || frozenFlag

/-- Predicate in main.py is declared with a bare @dataclass: eq defaults to
true, frozen and the forced hash default to false. -/
def predicateHashDefined : Bool := dataclassHashDefined true false false

/-- Adding an element to a Python set demands a hashable value: with __hash__
set to None the insertion raises TypeError instead of collapsing duplicates. -/
def pySetAdd (hashDefined : Bool) (s : List PyPredicate) (p : PyPredicate) :
    Option (List PyPredicate) :=
  if hashDefined then
    some (if s.any (fun q => pyPredicateEq q p) then s else s ++ [p])
  else none

mutual

theorem pyTermBEq_iff : ∀ x y, pyTermBEq x y = true ↔ x = y
  | .mk n1 t1 a1, .mk n2 t2 a2 => by
    rw [pyTermBEq]
    simp only [Bool.and_eq_true, beq_iff_eq, PyTerm.mk.injEq]
    constructor
    · rintro ⟨⟨h1, h2⟩, h3⟩
      exact ⟨h1, h2, (pyArgsBEq_iff a1 a2).mp h3⟩
    · rintro ⟨h1, h2, h3⟩
      exact ⟨⟨h1, h2⟩, (pyArgsBEq_iff a1 a2).mpr h3⟩

theorem pyArgsBEq_iff : ∀ a b, pyArgsBEq a b = true ↔ a = b
  | none, none => by simp [pyArgsBEq]
  | none, some l2 => by simp [pyArgsBEq]
  | some l1, none => by simp [pyArgsBEq]
  | some l1, some l2 => by
    rw [pyArgsBEq]
    simp only [Option.some.injEq]
    exact pyTermListBEq_iff l1 l2

theorem pyTermListBEq_iff : ∀ l1 l2, pyTermListBEq l1 l2 = true ↔ l1 = l2
  | [], [] => by simp [pyTermListBEq]
  | [], y :: ys => by simp [pyTermListBEq]
  | x :: xs, [] => by simp [pyTermListBEq]
  | x :: xs, y :: ys => by
    rw [pyTermListBEq]
    simp only [Bool.and_eq_true, List.cons.injEq]
    constructor
    · rintro ⟨h1, h2⟩
      exact ⟨(pyTermBEq_iff x y).mp h1, (pyTermListBEq_iff xs ys).mp h2⟩
    · rintro ⟨h1, h2⟩
      exact ⟨(pyTermBEq_iff x y).mpr h1, (pyTermListBEq_iff xs ys).mpr h2⟩

end

/-- Claim C1 counterexample: no hash is defined for Predicate (a bare
@dataclass with eq on and frozen off sets __hash__ to None), so placing even
one Predicate value into a set fails instead of collapsing duplicates. -/
theorem claim_C1_hash_counterexample :
    pySetAdd predicateHashDefined [] ⟨"man", [], false⟩ = none := rfl

/-- Claim C1 (amended): two Predicate values are equal under the
dataclass-generated equality exactly when their predicate name, ordered
argument sequence and negation flag all agree; however no corresponding hash
is defined, so Predicate values cannot be placed in a set at all. -/
theorem claim_C1_predicate_equality (p q : PyPredicate) :
    pyPredicateEq p q = true ↔ p.name = q.name ∧ p.args = q.args ∧ p.negated = q.negated := by
  unfold pyPredicateEq
  simp only [Bool.and_eq_true, beq_iff_eq]
  constructor
  · rintro ⟨⟨h1, h2⟩, h3⟩
    exact ⟨h1, (pyTermListBEq_iff p.args q.args).mp h2, h3⟩
  · rintro ⟨h1, h2, h3⟩
    exact ⟨⟨h1, (pyTermListBEq_iff p.args q.args).mpr h2⟩, h3⟩

/-! ## String helpers

Char-list implementations of the Python string operations used by
persistence.py and semantic_parser.py (strip, rstrip, substring search,
split).  They are shared by the translations below. -/

/-- Substring occurrence test (Python: pat in s). -/
def charsHasSub : List Char → List Char → Bool
  | [], pat => pat.isEmpty
  | h :: t, pat => List.isPrefixOf pat (h :: t) || charsHasSub t pat

def strHasSub (s pat : String) : Bool := charsHasSub s.toList pat.toList

/-- Split at the first occurrence of a pattern (Python: s.split(pat, 1) when
the pattern occurs; none when it does not). -/
def splitSubAux (pat : List Char) : List Char → List Char → Option (List Char × List Char)
  | [], acc => if List.isPrefixOf pat ([] : List Char) then some (acc.reverse, []) else none
  | h :: t, acc =>
    if List.isPrefixOf pat (h :: t) then some (acc.reverse, (h :: t).drop pat.length)
    else splitSubAux pat t (h :: acc)

def splitFirstSub (s pat : String) : Option (String × String) :=
  match splitSubAux pat.toList s.toList [] with
  | some (a, b) => some (String.mk a, String.mk b)
  | none => none

/-- Split at every occurrence of a separator char (Python: s.split(sep)). -/
def splitOnCharAux (c : Char) : List Char → List Char → List String
  | [], acc => [String.mk acc.reverse]
  | h :: t, acc =>
    if h = c then String.mk acc.reverse :: splitOnCharAux c t []
    else splitOnCharAux c t (h :: acc)

def splitOnChar (s : String) (c : Char) : List String := splitOnCharAux c s.toList []

/-- Python strip(): drop whitespace from both ends. -/
def pyStrip (s : String) : String :=
  String.mk (((s.toList.dropWhile Char.isWhitespace).reverse.dropWhile
    Char.isWhitespace).reverse)

/-- Python rstrip(chars): drop any of the given chars from the right end. -/
def pyRstripChars (s : String) (cs : List Char) : String :=
  String.mk ((s.toList.reverse.dropWhile (fun c => c ∈ cs)).reverse)

/-- Python strip(chars): drop any of the given chars from both ends. -/
def pyStripChars (s : String) (cs : List Char) : String :=
  String.mk (((s.toList.dropWhile (fun c => c ∈ cs)).reverse.dropWhile
    (fun c => c ∈ cs)).reverse)

/-- Python split(): whitespace-separated tokens, empties dropped. -/
def pySplitWs (s : String) : List String :=
  (splitOnChar s ' ').filter (fun t => t ≠ "")

/-! ## persistence.py

Translated from src/persistence.py (PersistenceManager). -/

/-- Translated from save_to_file: the file is opened for writing (truncating
it) and one write of pred plus a dot and a newline is appended per predicate;
this is the resulting file content after a complete run. -/
def saveToFileContent (preds : List String) : String :=
  preds.foldl (fun acc p => acc ++ (p ++ ".\n")) ""

/-- save_to_file under failure injection: some k means get_all_predicates or
the write raises just before the write of index k; the exception propagates
(the flag is false) and the writes already made stay in the file. -/
def saveAttempt : List String → Option Nat → String → Bool × String
  | _, some 0, acc => (false, acc)
  | [], _, acc => (true, acc)
  | p :: ps, some (k + 1), acc => saveAttempt ps (some k) (acc ++ (p ++ ".\n"))
  | p :: ps, none, acc => saveAttempt ps none (acc ++ (p ++ ".\n"))

/-- A full save_to_file call on a file that previously held prior: open with
mode w truncates the file before the loop runs, so the accumulator starts
empty and prior is discarded whatever happens afterwards. -/
def saveToFileRun (prior : String) (preds : List String) (failAt : Option Nat) :
    Bool × String :=
  let _truncated := prior
  saveAttempt preds failAt ""

/-- Translated from _parse_predicate: a clause containing ":-" becomes the
pair (rule, clause); otherwise the string is split at the first opening
parenthesis into functor and arguments (closing parentheses stripped,
arguments split on commas); without a parenthesis the split raises and the
handler returns the whole string with no arguments. -/
def parsePredicate (pred : String) : String × List String :=
  if strHasSub pred ":-" then ("rule", [pred])
  else
    match splitFirstSub pred "(" with
    | some (functor, rest) => (functor, splitOnChar (pyRstripChars rest [')']) ',')
    | none => (pred, [])

/-- The Neo4j operations export_to_neo4j issues, in order: clear the whole
graph, then create one node per predicate. -/
inductive GraphOp where
  | deleteAll
  | createNode (node : String × List String)

def applyGraphOp (g : List (String × List String)) : GraphOp → List (String × List String)
  | .deleteAll => []
  | .createNode n => g ++ [n]

def runGraphOps (g : List (String × List String)) (ops : List GraphOp) :
    List (String × List String) :=
  ops.foldl applyGraphOp g

/-- Translated from export_to_neo4j: graph.delete_all() precedes the creation
loop, which creates one node per predicate of the knowledge base. -/
def exportOps (preds : List String) : List GraphOp :=
  GraphOp.deleteAll :: preds.map (fun p => GraphOp.createNode (parsePredicate p))

/-! ### Persistence lemmas and claims -/

theorem saveToFileContent_toList :
    ∀ (preds : List String) (acc : String),
      (preds.foldl (fun a p => a ++ (p ++ ".\n")) acc).toList
        = acc.toList ++ (preds.map (fun p => p.toList ++ ['.', '\n'])).flatten := by
  intro preds
  induction preds with
  | nil => intro acc; simp
  | cons p ps ih =>
    intro acc
    simp only [List.foldl_cons, List.map_cons, List.flatten_cons]
    rw [ih]
    simp [String.toList]

theorem count_newlines_flatten :
    ∀ (ps : List String), (∀ p ∈ ps, p.toList.count '\n' = 0) →
      ((ps.map (fun p => p.toList ++ ['.', '\n'])).flatten).count '\n' = ps.length := by
  intro ps
  induction ps with
  | nil => intro h; simp
  | cons p rest ih =>
    intro h
    have hp : p.toList.count '\n' = 0 := h p (List.mem_cons_self p rest)
    have hrest : ∀ q ∈ rest, q.toList.count '\n' = 0 :=
      fun q hq => h q (List.mem_cons_of_mem p hq)
    simp only [List.map_cons, List.flatten_cons, List.count_append, ih hrest,
      List.length_cons]
    rw [hp]
    simp [Nat.add_comm]

/-- Claim C5: after a complete save_to_file run the file holds, for each
predicate in order, exactly that predicate followed by a dot and a newline
and nothing else; when no predicate contains a newline the file therefore
has exactly one line per predicate. -/
theorem claim_C5_save_one_line_per_predicate (preds : List String)
    (h : ∀ p ∈ preds, p.toList.count '\n' = 0) :
    (saveToFileContent preds).toList
        = (preds.map (fun p => p.toList ++ ['.', '\n'])).flatten
    ∧ (saveToFileContent preds).toList.count '\n' = preds.length := by
  have hmain := saveToFileContent_toList preds ""
  have hnil : ("" : String).toList = [] := rfl
  constructor
  · simpa [saveToFileContent] using hmain
  · rw [saveToFileContent, hmain, hnil, List.nil_append]
    exact count_newlines_flatten preds h

theorem claim_C5_save_one_line_per_predicate_witness :
    ((saveToFileContent ["man(socrates)", "mortal(X) :- man(X)"]).toList
        = ((["man(socrates)", "mortal(X) :- man(X)"]).map
            (fun p => p.toList ++ ['.', '\n'])).flatten)
    ∧ (saveToFileContent ["man(socrates)", "mortal(X) :- man(X)"]).toList.count '\n' = 2 :=
  claim_C5_save_one_line_per_predicate ["man(socrates)", "mortal(X) :- man(X)"]
    (by decide)

theorem foldl_createNode (prs : List (String × List String)) :
    ∀ (init : List (String × List String)),
      ((prs.map GraphOp.createNode).foldl applyGraphOp init) = init ++ prs := by
  induction prs with
  | nil => intro init; simp
  | cons pr rest ih =>
    intro init
    simp only [List.map_cons, List.foldl_cons]
    rw [ih]
    simp [applyGraphOp]

/-- Claim C9: whatever the target graph held before, export_to_neo4j first
deletes everything and then creates exactly one node per predicate: the final
graph is the predicate nodes alone, never an addition to prior content. -/
theorem claim_C9_export_clears_graph (g : List (String × List String))
    (preds : List String) :
    runGraphOps g (exportOps preds) = preds.map parsePredicate := by
  rw [runGraphOps, exportOps, List.foldl_cons]
  have h1 : applyGraphOp g GraphOp.deleteAll = [] := rfl
  rw [h1]
  have h2 : preds.map (fun p => GraphOp.createNode (parsePredicate p))
      = (preds.map parsePredicate).map GraphOp.createNode := by
    simp [List.map_map]
  rw [h2, foldl_createNode]
  simp

theorem saveAttempt_fail :
    ∀ (preds : List String) (k : Nat) (acc : String), k ≤ preds.length →
      saveAttempt preds (some k) acc
        = (false, (preds.take k).foldl (fun a p => a ++ (p ++ ".\n")) acc) := by
  intro preds
  induction preds with
  | nil =>
    intro k acc hk
    have hk0 : k = 0 := Nat.le_zero.mp hk
    subst hk0
    rfl
  | cons p ps ih =>
    intro k acc hk
    cases k with
    | zero => rfl
    | succ m =>
      have hm : m ≤ ps.length := Nat.lt_succ_iff.mp (Nat.lt_of_succ_le hk)
      rw [saveAttempt, ih m (acc ++ (p ++ ".\n")) hm]
      simp

/-- Claim C10: save_to_file is not atomic on error: the open in write mode
truncates the target before iteration, so a failure before the write of
index k re-raises the exception and leaves only the first k lines in the
file; the previous content is never restored, whatever it was. -/
theorem claim_C10_save_not_atomic (prior : String) (preds : List String) (k : Nat)
    (hk : k ≤ preds.length) :
    saveToFileRun prior preds (some k)
      = (false, saveToFileContent (preds.take k)) := by
  rw [saveToFileRun, saveToFileContent, saveAttempt_fail preds k "" hk]

theorem claim_C10_save_not_atomic_witness :
    saveToFileRun "old content" ["likes(a, b)", "likes(b, c)"] (some 1)
      = (false, saveToFileContent ["likes(a, b)"]) :=
  claim_C10_save_not_atomic "old content" ["likes(a, b)", "likes(b, c)"] 1
    (by decide)

/-! ## semantic_parser.py

Translated from src/semantic_parser.py (SemanticParser).  The parser mixes
pure string processing with inspection of the spaCy dependency parse; the
spaCy-dependent pieces (_parse_universal, _parse_existential, _parse_fact and
the token scans that dispatch to them) are abstracted as an oracle, while
every string-level branch is translated directly.  Python errors surface as
an Except value; each ParseErr constructor below except recursionLimit stands
for a ValueError raised by the source. -/

inductive ParseErr where
  | emptySentence
  | emptyQuery
  | conditionalFormat
  | ifElseFormat
  | universalSubject
  | unableToParse
  | noWords
  | unpackMismatch
  | recursionLimit
deriving DecidableEq, Repr

/-- The spaCy-dependent fragments of SemanticParser: token scans for
quantifier words and the three doc-driven constituent parsers (the last
argument of parseFact is the optional default subject). -/
structure NLPOracle where
  hasUniversalToken : String → Bool
  hasExistentialToken : String → Bool
  parseUniversal : String → Except ParseErr String
  parseExistential : String → Except ParseErr String
  parseFact : String → Option String → Except ParseErr String

/-- Char-level lower-casing (Python str.lower on the ASCII inputs used
here). -/
def strToLower (s : String) : String := String.mk (s.toList.map Char.toLower)

/-- Char-level prefix test (Python str.startswith). -/
def strStarts (s pre : String) : Bool := List.isPrefixOf pre.toList s.toList

def isWordChar (c : Char) : Bool := c.isAlphanum || c = '_'

/-- Maximal word-character runs of a string (the words a regex word-boundary
search inspects). -/
def wordRunsAux : List Char → List Char → List String
  | [], acc => if acc.isEmpty then [] else [String.mk acc.reverse]
  | c :: t, acc =>
    if isWordChar c then wordRunsAux t (c :: acc)
    else if acc.isEmpty then wordRunsAux t []
    else String.mk acc.reverse :: wordRunsAux t []

def wordRuns (s : String) : List String := wordRunsAux s.toList []

/-- re.search of is or are as a whole word. -/
def hasWordIsAre (s : String) : Bool :=
  (wordRuns s).any (fun w => w = "is" || w = "are")

theorem dropWhile_length_le (p : Char → Bool) :
    ∀ l : List Char, (l.dropWhile p).length ≤ l.length := by
  intro l
  induction l with
  | nil => simp
  | cons c t ih =>
    rw [List.dropWhile]
    split
    · exact Nat.le_succ_of_le ih
    · exact Nat.le_refl _

/-- Alternating runs of word and non-word characters, each tagged with
whether it is a word run. -/
def splitRuns : List Char → List (Bool × List Char)
  | [] => []
  | c :: t =>
    (isWordChar c, c :: t.takeWhile (fun d => isWordChar d = isWordChar c))
      :: splitRuns (t.dropWhile (fun d => isWordChar d = isWordChar c))
termination_by l => l.length
decreasing_by
  exact Nat.lt_succ_of_le (dropWhile_length_le _ _)

/-- re.sub of the stop words if, then, else, is, are, was, were (as whole
words) by a space. -/
def removeStopWords (s : String) : String :=
  String.mk (((splitRuns s.toList).map (fun r =>
    if r.1 && decide (String.mk r.2 ∈ ["if", "then", "else", "is", "are", "was", "were"])
    then [' '] else r.2)).flatten)

/-- Whitespace-separated tokens, empties dropped (Python split()). -/
def splitWsAux : List Char → List Char → List String
  | [], acc => if acc.isEmpty then [] else [String.mk acc.reverse]
  | c :: t, acc =>
    if c.isWhitespace then
      if acc.isEmpty then splitWsAux t []
      else String.mk acc.reverse :: splitWsAux t []
    else splitWsAux t (c :: acc)

def wsTokens (s : String) : List String := splitWsAux s.toList []

/-- re.sub of any whitespace run by one space, followed by strip(). -/
def collapseWs (s : String) : String := String.intercalate " " (wsTokens s)

/-- re.sub of the subject as a whole word (ignoring case) by nothing,
followed by strip(). -/
def removeSubjectWord (s subj : String) : String :=
  pyStrip (String.mk (((splitRuns s.toList).map (fun r =>
    if r.1 && (strToLower (String.mk r.2) = strToLower subj) then [] else r.2)).flatten))

/-- re.sub of every non-word character by an underscore. -/
def nonWordToUnderscore (s : String) : String :=
  String.mk (s.toList.map (fun c => if isWordChar c then c else '_'))

/-- re.sub of every underscore run by one underscore. -/
def collapseUnderscoresAux : List Char → List Char
  | [] => []
  | c :: t =>
    if c = '_' then '_' :: collapseUnderscoresAux (t.dropWhile (fun d => d = '_'))
    else c :: collapseUnderscoresAux t
termination_by l => l.length
decreasing_by
  · exact Nat.lt_succ_of_le (dropWhile_length_le _ _)
  · exact Nat.lt_succ_of_le (Nat.le_refl _)

def collapseUnderscores (s : String) : String :=
  String.mk (collapseUnderscoresAux s.toList)

def replaceSpaceUnderscore (s : String) : String :=
  String.mk (s.toList.map (fun c => if c = ' ' then '_' else c))

/-- Translated from _convert_to_predicate. -/
def convertToPredicate (text subject : String) : String :=
  let t1 := removeStopWords (strToLower text)
  let t2 := collapseWs t1
  let t3 := removeSubjectWord t2 subject
  let t4 := if t3 = "" then "true" else t3
  let name := pyStripChars (collapseUnderscores (nonWordToUnderscore t4)) ['_']
  name ++ "(" ++ subject ++ ")"

/-- Translated from _extract_subject. -/
def extractSubject (sentence : String) : Except ParseErr String :=
  match wsTokens sentence with
  | [] => .error .noWords
  | w :: rest =>
    match rest with
    | r :: _ =>
      if strToLower w ∈ ["a", "an", "the"] then .ok (replaceSpaceUnderscore r)
      else .ok (replaceSpaceUnderscore w)
    | [] => .ok (replaceSpaceUnderscore w)

/-- Translated from _extract_subject_from_pred: the first parenthesised
group, cut at the first comma and stripped; none without parentheses. -/
def extractSubjectFromPred (pred : String) : Option String :=
  match splitFirstSub pred "(" with
  | none => none
  | some (_, rest) =>
    match splitFirstSub rest ")" with
    | none => none
    | some (inner, _) =>
      let sub := pyStrip inner
      if strHasSub sub "," then
        match splitFirstSub sub "," with
        | some (first, _) => some (pyStrip first)
        | none => some sub
      else some sub

/-- re.sub of a leading article (a, an or the, ignoring case) followed by
whitespace. -/
def dropLeadingArticle (s : String) : String :=
  let cs := s.toList
  let low := cs.map Char.toLower
  let tryArt := fun (art : List Char) =>
    if List.isPrefixOf art low then
      match cs.drop art.length with
      | d :: _ =>
        if d.isWhitespace then some ((cs.drop art.length).dropWhile Char.isWhitespace)
        else none
      | [] => none
    else none
  match tryArt ['a'] with
  | some r => String.mk r
  | none =>
    match tryArt ['a', 'n'] with
    | some r => String.mk r
    | none =>
      match tryArt ['t', 'h', 'e'] with
      | some r => String.mk r
      | none => s

/-- Translated from _parse_query_fact. -/
def parseQueryFact (sentence : String) : Except ParseErr String :=
  let s := pyStripChars (strToLower sentence) [' ', '?']
  if strStarts s "is " || strStarts s "are " then
    let afterAux :=
      if strStarts s "is " then (s.toList.drop 2).dropWhile Char.isWhitespace
      else (s.toList.drop 3).dropWhile Char.isWhitespace
    match splitFirstSub (String.mk afterAux) " " with
    | none => .error .unpackMismatch
    | some (subj, pred0) =>
      let pred1 := dropLeadingArticle pred0
      .ok (nonWordToUnderscore pred1 ++ "(" ++ subj ++ ")")
  else if strHasSub s " of " && strHasSub s " is " then
    match splitFirstSub s " is " with
    | none => .error .unpackMismatch
    | some (p0, remainder0) =>
      let subject := replaceSpaceUnderscore (pyStrip p0)
      let remainder := pyStrip remainder0
      match splitFirstSub remainder " of " with
      | none => .error .unpackMismatch
      | some (predPart0, obj) =>
        let predPart := pyStrip (dropLeadingArticle predPart0)
        .ok (nonWordToUnderscore predPart ++ "(" ++ subject ++ ", "
          ++ replaceSpaceUnderscore (pyStrip obj) ++ ")")
  else
    match splitFirstSub s " is " with
    | none => .error .unableToParse
    | some (p0, p1) =>
      let subject := replaceSpaceUnderscore (pyStrip p0)
      let remainder := dropLeadingArticle (pyStrip p1)
      .ok (nonWordToUnderscore remainder ++ "(" ++ subject ++ ")")

/-- Scan for the first comma followed by optional whitespace, the given
keyword (ignoring case) and at least one whitespace character; yields the
text before the comma and the text after that whitespace. -/
def scanCommaKw (kw : List Char) : List Char → List Char → Option (List Char × List Char)
  | [], _ => none
  | c :: t, acc =>
    if c = ',' then
      let afterSp := t.dropWhile Char.isWhitespace
      if List.isPrefixOf kw (afterSp.map Char.toLower) then
        match afterSp.drop kw.length with
        | d :: ds =>
          if d.isWhitespace then some (acc.reverse, (d :: ds).dropWhile Char.isWhitespace)
          else scanCommaKw kw t (c :: acc)
        | [] => scanCommaKw kw t (c :: acc)
      else scanCommaKw kw t (c :: acc)
    else scanCommaKw kw t (c :: acc)

/-- The conditional pattern of _parse_conditional: if, whitespace, a lazy
condition group, a comma, optional whitespace, then, whitespace, the
consequent group. -/
def parseConditionalSplit (s : String) : Option (String × String) :=
  match s.toList with
  | a :: b :: rest =>
    if a.toLower = 'i' && b.toLower = 'f' then
      match rest with
      | c :: _ =>
        if c.isWhitespace then
          match scanCommaKw ['t', 'h', 'e', 'n'] (rest.dropWhile Char.isWhitespace) [] with
          | some (cond, thenPart) => some (String.mk cond, String.mk thenPart)
          | none => none
        else none
      | [] => none
    else none
  | _ => none

/-- The if/else pattern of _parse_if_else: the conditional pattern with a
further comma, optional whitespace, else, whitespace, and the alternative
group. -/
def parseIfElseSplit (s : String) : Option (String × String × String) :=
  match parseConditionalSplit s with
  | none => none
  | some (cond, rest) =>
    match scanCommaKw ['e', 'l', 's', 'e'] rest.toList [] with
    | some (thenPart, elsePart) => some (cond, String.mk thenPart, String.mk elsePart)
    | none => none

/-- Translated from _parse_conditional. -/
def parseConditional (o : NLPOracle) (s : String) : Except ParseErr String :=
  match parseConditionalSplit s with
  | none => .error .conditionalFormat
  | some (condTxt, thenTxt) =>
    match o.parseFact (pyStrip condTxt) none with
    | .error e => .error e
    | .ok condPred =>
      let subj := extractSubjectFromPred condPred
      match o.parseFact (pyStrip thenTxt) subj with
      | .error e => .error e
      | .ok thenPred => .ok (thenPred ++ " :- " ++ condPred)

/-- Translated from _parse_if_else.  The source builds the result with a raw
f-string, so the backslash-n and backslash-plus inside it are two literal
characters each. -/
def parseIfElse (o : NLPOracle) (s : String) : Except ParseErr String :=
  match parseIfElseSplit s with
  | none => .error .ifElseFormat
  | some (condTxt, thenTxt, elseTxt) =>
    match o.parseFact (pyStrip condTxt) none with
    | .error e => .error e
    | .ok condPred =>
      let subj := extractSubjectFromPred condPred
      match o.parseFact (pyStrip thenTxt) subj with
      | .error e => .error e
      | .ok thenPred =>
        match o.parseFact (pyStrip elseTxt) subj with
        | .error e => .error e
        | .ok elsePred =>
          .ok (thenPred ++ " :- " ++ condPred ++ "\\n" ++ elsePred ++ " :- \\+ " ++ condPred)

/-- parse_sentence mapped over the parts of a multi-sentence input, the first
error propagating as in a Python comprehension; recur is parse_sentence one
recursion level deeper. -/
def parseSentenceParts (recur : String → Except ParseErr String) :
    List String → Except ParseErr (List String)
  | [] => .ok []
  | p :: ps =>
    match recur p with
    | .error e => .error e
    | .ok r =>
      match parseSentenceParts recur ps with
      | .error e => .error e
      | .ok rs => .ok (r :: rs)

/-- Translated from parse_sentence: the body, with recur standing for the
recursive call of the multi-sentence branch. -/
def parseSentenceBody (o : NLPOracle) (recur : String → Except ParseErr String)
    (sentence : String) : Except ParseErr String :=
  if strStarts (strToLower sentence) "whoever " then
    let text := pyRstripChars (pyStrip sentence) ['.']
    match splitFirstSub text " is " with
    | none => .error .unpackMismatch
    | some (_, body) =>
      .ok (convertToPredicate body "X" ++ " :- " ++ convertToPredicate "can read" "X")
  else if (sentence.toList.count '.') > 1 then
    let parts := ((splitOnChar sentence '.').map pyStrip).filter (fun t => t ≠ "")
    match parseSentenceParts recur parts with
    | .error e => .error e
    | .ok preds => .ok (String.intercalate "\n" preds)
  else
    let s1 := pyRstripChars (pyStrip sentence) ['.']
    if s1 = "" then .error .emptySentence
    else
      let s2 :=
        if strStarts (strToLower s1) "somebody" then
          "some person" ++ String.mk (s1.toList.drop 8)
        else s1
      let s3 :=
        if strStarts (strToLower s2) "some who" then
          "some person who" ++ String.mk (s2.toList.drop 8)
        else s2
      if strStarts (strToLower s3) "if " then
        if strHasSub (strToLower s3) "else" then parseIfElse o s3
        else parseConditional o s3
      else if strStarts (strToLower s3) "is " then parseQueryFact s3
      else if strHasSub s3 "not read the book" then
        match extractSubject s3 with
        | .error e => .error e
        | .ok subj => .ok ("not_read_book(" ++ replaceSpaceUnderscore subj ++ ")")
      else if strHasSub s3 "passed the first exam" then
        match extractSubject s3 with
        | .error e => .error e
        | .ok subj => .ok ("passed_first_exam(" ++ replaceSpaceUnderscore subj ++ ")")
      else if o.hasUniversalToken s3 then o.parseUniversal s3
      else if o.hasExistentialToken s3 then o.parseExistential s3
      else o.parseFact s3 none

/-- parse_sentence with an explicit recursion budget for the multi-sentence
branch (the only self-call of the source; its parts are dot-free, so the
budget is never exhausted on inputs the source terminates on). -/
def parseSentence (o : NLPOracle) (fuel : Nat) : String → Except ParseErr String :=
  Nat.rec (motive := fun _ => String → Except ParseErr String)
    (fun _ => .error .recursionLimit)
    (fun _ recur => parseSentenceBody o recur)
    fuel

/-- Translated from parse_query. -/
def parseQuery (o : NLPOracle) (fuel : Nat) (sentence : String) : Except ParseErr String :=
  let clean := pyStrip (pyRstripChars (pyStrip sentence) ['?'])
  if clean = "" then .error .emptyQuery
  else
    let low := strToLower clean
    match wsTokens low with
    | [] => .error .unableToParse
    | aux :: _ =>
      if aux = "is" || aux = "are" then parseQueryFact low
      else if aux ∈ ["does", "do", "can", "could", "should", "will", "did"] then
        let core :=
          if List.isPrefixOf aux.toList low.toList then
            match low.toList.drop aux.toList.length with
            | d :: ds =>
              if d.isWhitespace then String.mk ((d :: ds).dropWhile Char.isWhitespace)
              else low
            | [] => low
          else low
        o.parseFact core none
      else if hasWordIsAre low then parseQueryFact low
      else if strHasSub clean "(" && strHasSub clean ")" then .ok (pyRstripChars clean ['.'])
      else parseSentence o fuel clean

/-- An oracle instance used to state closed evaluations; the branches taken
by the inputs below never consult it. -/
def plainOracle : NLPOracle :=
  { hasUniversalToken := fun _ => false
    hasExistentialToken := fun _ => false
    parseUniversal := fun _ => .error .universalSubject
    parseExistential := fun _ => .error .unableToParse
    parseFact := fun _ _ => .error .unableToParse }

/-- Claim C4 counterexample: the non-empty query string consisting of the
letter x, a space and the word is raises the Unable-to-parse ValueError at
the parse boundary, so raising is not limited to empty or malformed-empty
inputs. -/
theorem claim_C4_nonempty_counterexample :
    parseQuery plainOracle 1 "x is" = .error .unableToParse
    ∧ ("x is" : String) ≠ "" := by
  constructor
  · rfl
  · decide

/-- Claim C4 (amended): an empty sentence and an empty query both fail fast
with the corresponding ValueError, whatever the NLP collaborator does and
whatever the recursion budget is; raising is however not equivalent to
emptiness (see the counterexample for a non-empty input that raises). -/
theorem claim_C4_empty_inputs_raise (o : NLPOracle) (fuel : Nat) :
    parseSentence o (fuel + 1) "" = .error .emptySentence
    ∧ parseQuery o fuel "" = .error .emptyQuery := by
  constructor
  · rfl
  · rfl
